import Mathlib

/-!
# Verification of the geniidata bitmap ingestion pipeline

A shallow embedding of the JavaScript ingestion pipeline in `script.js`
(the Enhanced Bitmap Tracker: credential rotator, CSV dataset store,
gap detector / queue scheduler, retry state machine, live-feed handler),
together with proofs and refutations of the specified invariants.

Conventions:
* JavaScript numbers holding block heights, timestamps and counters are
  modelled as `Int` (`parseInt` results can be negative); retry counters,
  which are only ever incremented from 0 and decremented after an
  increment, are modelled as `Nat`.
* The in-memory JavaScript `Set` of processed blocks is modelled as a
  duplicate-free insertion-ordered `List Int` (`addProcessed`); only
  membership is relevant.
* `Array.prototype.sort` with the comparator `(a, b) => a.blockNumber - b.blockNumber`
  is a stable sort by the `blockNumber` key (ECMAScript guarantees sort
  stability); it is modelled by the stable insertion sort `sortByKey`.
-/

namespace GeniiData

/-! ## Generic string helpers: JavaScript `String.prototype.includes` -/

/-- `startsWithL l p` is true when `p` is an initial segment of `l`
(character-list version of JS `startsWith`, used to build `includes`). -/
def startsWithL : List Char → List Char → Bool
  | _, [] => true
  | [], _ :: _ => false
  | c :: cs, d :: ds => c = d && startsWithL cs ds

/-- Character-list version of JS `String.prototype.includes`. -/
def containsL (pat : List Char) : List Char → Bool
  | [] => startsWithL [] pat
  | c :: cs => startsWithL (c :: cs) pat || containsL pat cs

/-- JS `s.includes(pat)`: `pat` occurs as a contiguous substring of `s`. -/
def strContains (s pat : String) : Bool :=
  containsL pat.toList s.toList

/-- Split a character list at every occurrence of `sep`; always returns at
least one (possibly empty) group, like JS `String.prototype.split` with a
one-character separator. -/
def splitOnChar (sep : Char) : List Char → List (List Char)
  | [] => [[]]
  | c :: rest =>
    match splitOnChar sep rest with
    | [] => [[]]
    | g :: gs => if c = sep then [] :: g :: gs else (c :: g) :: gs

/-- JS `s.split(sep)` for a one-character separator. -/
def strSplit (s : String) (sep : Char) : List String :=
  (splitOnChar sep s.toList).map (fun cs => String.mk cs)

/-- JS `s.trim()`: strip leading and trailing whitespace. -/
def strTrim (s : String) : String :=
  String.mk (((s.toList.dropWhile Char.isWhitespace).reverse.dropWhile
    Char.isWhitespace).reverse)

/-! ## JavaScript `parseInt` (radix 10)

`parseInt` skips leading whitespace, accepts an optional sign and parses
the longest leading run of decimal digits; it yields `NaN` (here `none`)
when no digit is found.  (Automatic hex detection on a `0x` prescript is
irrelevant to the numeric CSV keys and is not modelled.) -/

/-- Value of the longest leading run of decimal digits, `none` if empty. -/
def parseDigits (cs : List Char) : Option Nat :=
  let ds := cs.takeWhile Char.isDigit
  if ds.isEmpty then none
  else some (ds.foldl (fun a c => a * 10 + (c.toNat - 48)) 0)

/-- JS `parseInt(s)` in radix 10; `none` models `NaN`. -/
def parseIntJS (s : String) : Option Int :=
  let cs := s.toList.dropWhile Char.isWhitespace
  match cs with
  | '-' :: rest => (parseDigits rest).map (fun n => -(n : Int))
  | '+' :: rest => (parseDigits rest).map (fun n => (n : Int))
  | _ => (parseDigits cs).map (fun n => (n : Int))

/-! ## Integer ranges

`intRange lo hi` is the list `[lo, lo+1, ..., hi]` (empty when `hi < lo`),
the iteration space of the JS `for (let b = lo; b <= hi; b++)` loops. -/

/-- The ascending list of integers from `lo` to `hi` inclusive. -/
def intRange (lo hi : Int) : List Int :=
  (List.range (hi + 1 - lo).toNat).map (fun (i : Nat) => lo + (i : Int))

theorem mem_intRange {lo hi b : Int} : b ∈ intRange lo hi ↔ lo ≤ b ∧ b ≤ hi := by
  unfold intRange
  rw [List.mem_map]
  constructor
  · rintro ⟨i, hi', rfl⟩
    rw [List.mem_range] at hi'
    have h1 : (i : Int) < ((hi + 1 - lo).toNat : Int) := by exact_mod_cast hi'
    have h2 : ((hi + 1 - lo).toNat : Int) = max (hi + 1 - lo) 0 := by
      rw [Int.toNat_eq_max]
    constructor <;> omega
  · rintro ⟨h1, h2⟩
    refine ⟨(b - lo).toNat, ?_, ?_⟩
    · rw [List.mem_range]
      have : ((b - lo).toNat : Int) = b - lo := Int.toNat_of_nonneg (by omega)
      have h3 : ((hi + 1 - lo).toNat : Int) = hi + 1 - lo := Int.toNat_of_nonneg (by omega)
      exact_mod_cast show ((b - lo).toNat : Int) < ((hi + 1 - lo).toNat : Int) by omega
    · have : ((b - lo).toNat : Int) = b - lo := Int.toNat_of_nonneg (by omega)
      omega

theorem intRange_nodup (lo hi : Int) : (intRange lo hi).Nodup := by
  unfold intRange
  refine List.Nodup.map ?_ (List.nodup_range _)
  intro a b h
  have h1 : lo + (a : Int) = lo + (b : Int) := h
  have h2 : (a : Int) = (b : Int) := by omega
  exact_mod_cast h2

/-! ## Stable sort by an integer key

`Array.prototype.sort` with comparator `(a, b) => key(a) - key(b)` is a
stable sort by `key`: the result is non-decreasing in `key` and entries
with equal keys keep their original relative order.  `sortByKey` is a
stable insertion sort realising exactly that contract. -/

section SortByKey

variable {α : Type} (key : α → Int)

/-- Insert `x` into `l` after every element whose key is strictly smaller,
and before the first element whose key is `≥ key x` (so `x` lands after
earlier elements with an equal key: stability). -/
def insertByKey (x : α) : List α → List α
  | [] => [x]
  | y :: ys => if key y < key x then y :: insertByKey x ys else x :: y :: ys

/-- Stable insertion sort by `key`, modelling JS
`arr.sort((a, b) => key(a) - key(b))`. -/
def sortByKey : List α → List α
  | [] => []
  | x :: xs => insertByKey key x (sortByKey xs)

theorem insertByKey_perm (x : α) (l : List α) :
    List.Perm (insertByKey key x l) (x :: l) := by
  induction l with
  | nil => simp [insertByKey]
  | cons y ys ih =>
    unfold insertByKey
    by_cases h : key y < key x
    · rw [if_pos h]
      exact (ih.cons y).trans (List.Perm.swap x y ys)
    · rw [if_neg h]

theorem sortByKey_perm (l : List α) : List.Perm (sortByKey key l) l := by
  induction l with
  | nil => exact List.Perm.refl _
  | cons x xs ih =>
    unfold sortByKey
    exact (insertByKey_perm key x (sortByKey key xs)).trans (ih.cons x)

theorem insertByKey_pairwise_le {x : α} {l : List α}
    (h : l.Pairwise (fun a b => key a ≤ key b)) :
    (insertByKey key x l).Pairwise (fun a b => key a ≤ key b) := by
  induction l with
  | nil => simp [insertByKey]
  | cons y ys ih =>
    rw [List.pairwise_cons] at h
    unfold insertByKey
    by_cases hlt : key y < key x
    · rw [if_pos hlt]
      rw [List.pairwise_cons]
      refine ⟨?_, ih h.2⟩
      intro a ha
      have hmem := (insertByKey_perm key x ys).mem_iff.mp ha
      rcases List.mem_cons.mp hmem with rfl | hmem2
      · omega
      · exact h.1 a hmem2
    · rw [if_neg hlt]
      rw [List.pairwise_cons]
      refine ⟨?_, List.pairwise_cons.mpr h⟩
      intro a ha
      rcases List.mem_cons.mp ha with rfl | hmem
      · omega
      · have := h.1 a hmem
        omega

theorem sortByKey_pairwise_le (l : List α) :
    (sortByKey key l).Pairwise (fun a b => key a ≤ key b) := by
  induction l with
  | nil => exact List.Pairwise.nil
  | cons x xs ih => exact insertByKey_pairwise_le key ih

/-- Stability, matched key: filtering the insertion result for the key of
the inserted element yields the element followed by the old matches. -/
theorem filter_insertByKey_self (x : α) (l : List α) :
    (insertByKey key x l).filter (fun e => key e = key x)
      = x :: l.filter (fun e => key e = key x) := by
  induction l with
  | nil => simp [insertByKey]
  | cons y ys ih =>
    unfold insertByKey
    by_cases hlt : key y < key x
    · rw [if_pos hlt]
      have hy : key y ≠ key x := by omega
      simp [List.filter_cons, hy, ih]
    · rw [if_neg hlt]
      simp [List.filter_cons]

/-- Stability, unmatched key: inserting an element whose key differs from
`b` does not change the `b`-matches of the list. -/
theorem filter_insertByKey_other {b : Int} {x : α} (hb : key x ≠ b) (l : List α) :
    (insertByKey key x l).filter (fun e => key e = b)
      = l.filter (fun e => key e = b) := by
  induction l with
  | nil => simp [insertByKey, hb]
  | cons y ys ih =>
    unfold insertByKey
    by_cases hlt : key y < key x
    · rw [if_pos hlt]
      simp only [List.filter_cons, ih]
    · rw [if_neg hlt]
      simp [List.filter_cons, hb]

/-- Stability of `sortByKey`: the subsequence of entries with any fixed
key `b` is unchanged by the sort. -/
theorem filter_sortByKey (b : Int) (l : List α) :
    (sortByKey key l).filter (fun e => key e = b) = l.filter (fun e => key e = b) := by
  induction l with
  | nil => rfl
  | cons x xs ih =>
    unfold sortByKey
    by_cases hx : key x = b
    · subst hx
      rw [filter_insertByKey_self, ih]
      simp [List.filter_cons]
    · rw [filter_insertByKey_other key hx, ih]
      simp [List.filter_cons, hx]

end SortByKey

/-! ## De-duplication keeping the first occurrence

Mirrors the JS pattern
`for (e of list) if (!seen.has(key(e))) { out.push(e); seen.add(key(e)) }`. -/

section DedupeByKey

variable {α : Type} (key : α → Int)

/-- One pass over `l` keeping each entry whose key was not seen yet;
`seen` is the set (as a list) of keys already kept. -/
def dedupeByKey (seen : List Int) : List α → List α
  | [] => []
  | e :: rest =>
    if key e ∈ seen then dedupeByKey seen rest
    else e :: dedupeByKey (key e :: seen) rest

theorem dedupeByKey_sublist (seen : List Int) (l : List α) :
    List.Sublist (dedupeByKey key seen l) l := by
  induction l generalizing seen with
  | nil => exact List.Sublist.refl _
  | cons e rest ih =>
    unfold dedupeByKey
    by_cases h : key e ∈ seen
    · rw [if_pos h]
      exact (ih seen).cons e
    · rw [if_neg h]
      exact (ih (key e :: seen)).cons₂ e

theorem dedupeByKey_keys_fresh (seen : List Int) (l : List α) :
    (∀ a ∈ dedupeByKey key seen l, key a ∉ seen) ∧
      (dedupeByKey key seen l).Pairwise (fun a c => key a ≠ key c) := by
  induction l generalizing seen with
  | nil => exact ⟨(fun a h => nomatch h), List.Pairwise.nil⟩
  | cons e rest ih =>
    unfold dedupeByKey
    by_cases h : key e ∈ seen
    · rw [if_pos h]
      exact ih seen
    · rw [if_neg h]
      obtain ⟨hmem, hpw⟩ := ih (key e :: seen)
      constructor
      · intro a ha
        rcases ha with _ | ⟨_, ha⟩
        · exact h
        · intro hs
          exact hmem a ha (List.mem_cons_of_mem _ hs)
      · rw [List.pairwise_cons]
        refine ⟨?_, hpw⟩
        intro a ha heq
        exact hmem a ha (by rw [← heq]; exact List.mem_cons_self _ _)

/-- If `b` was already seen, no kept entry has key `b`. -/
theorem filter_dedupeByKey_seen {b : Int} {seen : List Int} (hb : b ∈ seen)
    (l : List α) :
    (dedupeByKey key seen l).filter (fun e => key e = b) = [] := by
  induction l generalizing seen with
  | nil => rfl
  | cons e rest ih =>
    unfold dedupeByKey
    by_cases h : key e ∈ seen
    · rw [if_pos h]
      exact ih hb
    · rw [if_neg h]
      have he : (decide (key e = b)) = false := by
        simp only [decide_eq_false_iff_not]
        intro heq
        exact h (heq ▸ hb)
      simp only [List.filter_cons, he]
      exact ih (List.mem_cons_of_mem _ hb)

/-- First-occurrence semantics: for an unseen key `b`, de-duplication
keeps exactly the first entry of `l` whose key is `b` (if any). -/
theorem filter_dedupeByKey_unseen {b : Int} {seen : List Int} (hb : b ∉ seen)
    (l : List α) :
    (dedupeByKey key seen l).filter (fun e => key e = b)
      = (l.filter (fun e => key e = b)).take 1 := by
  induction l generalizing seen with
  | nil => rfl
  | cons e rest ih =>
    unfold dedupeByKey
    by_cases h : key e ∈ seen
    · rw [if_pos h]
      have he : (decide (key e = b)) = false := by
        simp only [decide_eq_false_iff_not]
        intro heq
        exact hb (heq ▸ h)
      simp only [List.filter_cons, he]
      exact ih hb
    · rw [if_neg h]
      by_cases heq : key e = b
      · have he : (decide (key e = b)) = true := by simp [heq]
        simp only [List.filter_cons, he, cond_true]
        rw [filter_dedupeByKey_seen key (heq ▸ List.mem_cons_self _ _)]
        simp [List.take]
      · have he : (decide (key e = b)) = false := by simp [heq]
        simp only [List.filter_cons, he]
        refine ih ?_
        intro hs
        rcases hs with _ | ⟨_, hs⟩
        · exact heq rfl
        · exact hb hs

end DedupeByKey

/-! ## Configuration

The environment-derived constants of `CONFIG` that the embedded functions
read (`script.js` lines 48-64); each has the documented default. -/

structure Config where
  historicalStartBlock : Int := 840000
  maxRequestsPerDayPerKey : Int := 2000
  dailyLimitBuffer : Int := 50
  requestInterval : Int := 220
  retryDelay : Nat := 5000
  maxRetries : Nat := 2
deriving DecidableEq

/-! ## Credential rotator (`getNextAvailableKey`, `script.js` 902-926)

Slots are identified by their index in `apiKeys`; a slot's mutable usage
record is a `KeyUsage`.  `Date.now()` and `getNextMidnight()` are
environment inputs and enter as the parameters `now` and `nextMidnight`. -/

structure KeyUsage where
  requestsToday : Int
  lastRequestTime : Int
  dailyResetTime : Int
deriving DecidableEq

structure RotatorState where
  keys : List KeyUsage
  currentKeyIndex : Nat
deriving DecidableEq

/-- `if (now >= usage.dailyResetTime) { usage.requestsToday = 0;
usage.dailyResetTime = this.getNextMidnight(); }` -/
def resetIfDue (now nextMidnight : Int) (u : KeyUsage) : KeyUsage :=
  if u.dailyResetTime ≤ now then
    { u with requestsToday := 0, dailyResetTime := nextMidnight }
  else u

/-- `canUseKey && rateLimitOk` for a slot (after any due daily reset). -/
def slotUsable (cfg : Config) (now : Int) (u : KeyUsage) : Bool :=
  decide (u.requestsToday < cfg.maxRequestsPerDayPerKey - cfg.dailyLimitBuffer)
    && decide (cfg.requestInterval ≤ now - u.lastRequestTime)

/-- The scan loop `for (let i = 0; i < this.apiKeys.length; i++)`:
`fuel` counts the iterations left, `i` the iterations done.  The daily
resets performed while scanning persist in the returned key list even
when the slot is then rejected, exactly as the JS mutation does. -/
def getNextAvailableKeyAux (cfg : Config) (now nextMidnight : Int) (cur : Nat) :
    Nat → Nat → List KeyUsage → List KeyUsage × Option Nat
  | 0, _, keys => (keys, none)
  | fuel + 1, i, keys =>
    match keys[(cur + i) % keys.length]? with
    | none => (keys, none)
    | some u =>
      if slotUsable cfg now (resetIfDue now nextMidnight u) then
        (keys.set ((cur + i) % keys.length) (resetIfDue now nextMidnight u),
          some ((cur + i) % keys.length))
      else
        getNextAvailableKeyAux cfg now nextMidnight cur fuel (i + 1)
          (keys.set ((cur + i) % keys.length) (resetIfDue now nextMidnight u))

/-- `getNextAvailableKey()`: round-robin scan starting at
`currentKeyIndex`, returning the first usable slot and advancing the
rotation pointer past it, or `none` when no slot qualifies. -/
def getNextAvailableKey (cfg : Config) (now nextMidnight : Int)
    (st : RotatorState) : RotatorState × Option Nat :=
  match getNextAvailableKeyAux cfg now nextMidnight st.currentKeyIndex
      st.keys.length 0 st.keys with
  | (keys2, some keyIndex) =>
    ({ keys := keys2, currentKeyIndex := (keyIndex + 1) % keys2.length }, some keyIndex)
  | (keys2, none) => ({ st with keys := keys2 }, none)

/-! ## ProcessedSet rebuild (`loadProcessedBlocks`, `script.js` 954-975)

The JS `Set` is modelled as a duplicate-free insertion-ordered list. -/

/-- JS `set.add(b)` on the processed-blocks `Set`. -/
def addProcessed (s : List Int) (b : Int) : List Int :=
  if b ∈ s then s else s ++ [b]

/-- `loadProcessedBlocks()`: scan every data line of the CSV content
(skipping the header), trim it, and collect `parseInt(parts[0])` of each
non-empty line whose first field parses.  The progress file is *not*
consulted: the function reads only the CSV content. -/
def loadProcessedBlocks (content : String) : List Int :=
  ((strSplit content '\n').drop 1).foldl
    (fun acc l =>
      let line := strTrim l
      if line ≠ "" then
        match parseIntJS ((strSplit line ',').headD "") with
        | some blockNumber => addProcessed acc blockNumber
        | none => acc
      else acc)
    []

/-! ## Dataset store: `sortCSVFile` (`script.js` 1338-1381)

`sortCSVFile` reads the whole CSV, parses every data row into
`{ blockNumber: parseInt(parts[0]), line }`, drops `NaN` rows, stable-sorts
by `blockNumber`, keeps the first occurrence of each `blockNumber`, and
writes `header :: keptLines` back — by a direct `fs.writeFileSync` to the
same path (no temporary file, no rename). -/

structure CSVEntry where
  blockNumber : Int
  line : String
deriving DecidableEq

/-- The data lines of a CSV content: everything after the header line,
except lines that are blank after trimming. -/
def csvDataLines (content : String) : List String :=
  ((strSplit content '\n').drop 1).filter (fun l => strTrim l ≠ "")

/-- `parsedData`: each data line paired with `parseInt` of its first
field, rows whose first field is `NaN` filtered out (JS `map` followed by
`filter(entry => !isNaN(entry.blockNumber))`). -/
def sortCSVFileParsed (content : String) : List CSVEntry :=
  (csvDataLines content).filterMap
    (fun line => (parseIntJS ((strSplit line ',').headD "")).map
      (fun n => CSVEntry.mk n line))

/-- `uniqueData`: the parsed rows sorted stably by block number with only
the first occurrence of each block number kept (`seenBlocks` starts empty). -/
def sortCSVFileUnique (content : String) : List CSVEntry :=
  dedupeByKey (fun e => e.blockNumber) []
    (sortByKey (fun e => e.blockNumber) (sortCSVFileParsed content))

/-- `sortCSVFile()` as content transformation: `none` when the function
returns without rewriting (fewer than 3 raw lines), otherwise the new file
content `[header, ...uniqueData].join('\n') + '\n'`. -/
def sortCSVFile (content : String) : Option String :=
  let lines := strSplit content '\n'
  if lines.length < 3 then none
  else some (String.intercalate "\n"
    (lines.headD "" :: (sortCSVFileUnique content).map (fun e => e.line)) ++ "\n")

/-! ## The file-system trace of `sortCSVFile` (for the atomicity claim)

To settle whether the rewrite uses write-to-temp-then-replace semantics we
record the file-system operations the function issues, in order. -/

inductive FsOp where
  | readOp (path : String)
  | writeOp (path : String) (content : String)
  | renameOp (src dst : String)
deriving DecidableEq

/-- The ordered file-system operations of one `sortCSVFile()` run on a
file `csvFile` currently holding `content`: one `readFileSync`, then —
unless the early-return for short files fires — one direct
`writeFileSync(csvFile, ...)`.  No other operation occurs. -/
def sortCSVFileOps (csvFile content : String) : List FsOp :=
  match sortCSVFile content with
  | none => [FsOp.readOp csvFile]
  | some newContent => [FsOp.readOp csvFile, FsOp.writeOp csvFile newContent]

/-- Spec-side predicate (from the spec's words "write-to-temp-then-replace
semantics": the visible path must be installed by a rename). -/
def renamesIntoTarget (csvFile : String) (ops : List FsOp) : Bool :=
  ops.any (fun op => match op with
    | FsOp.renameOp _ dst => dst = csvFile
    | _ => false)

/-- Spec-side predicate: some operation writes the visible path directly
(a torn intermediate state is then possible on partial failure). -/
def writesTargetDirectly (csvFile : String) (ops : List FsOp) : Bool :=
  ops.any (fun op => match op with
    | FsOp.writeOp p _ => p = csvFile
    | _ => false)

/-! ## Dataset store: `searchInCSV` (`script.js` 579-607) -/

/-- The record object built from one CSV line (`parts = line.split(',')`;
`parts[1] || null` maps a missing or empty field to `null`). -/
structure CSVRecord where
  blockNumber : Option Int
  inscriptionId : Option String
  satNumber : Option String
deriving DecidableEq

/-- Field `i` of a split line under JS `parts[i] || null`. -/
def fieldOrNull (parts : List String) (i : Nat) : Option String :=
  match parts[i]? with
  | some s => if s = "" then none else some s
  | none => none

/-- The object pushed for a matching line. -/
def rowToRecord (line : String) : CSVRecord :=
  let parts := strSplit line ','
  { blockNumber := parseIntJS (parts.headD "")
    inscriptionId := fieldOrNull parts 1
    satNumber := fieldOrNull parts 2 }

/-- `searchInCSV(query)`: loop over all data lines pushing a record for
every line containing `query`, then `results.slice(0, 100)`. -/
def searchInCSV (content query : String) : List CSVRecord :=
  let lines := ((strSplit content '\n').drop 1).filter (fun l => strTrim l ≠ "")
  let results := lines.foldl
    (fun results line =>
      if strContains line query then results ++ [rowToRecord line] else results)
    []
  results.take 100

/-! ## Tracker state, gap detection and queue refill

The mutable tracker fields that the scheduler and orchestrator touch.
The CSV store appears as its list of appended data rows (`csvRows`);
logging, caching, git auto-commit and the deferred sort timer are pure
side services with no bearing on the verified state and are not part of
the state. -/

structure BackfillProgress where
  lastProcessedBlock : Int
  totalProcessed : Int
deriving DecidableEq

structure TrackerState where
  processedBlocks : List Int
  csvRows : List String
  priorityQueue : List Int
  backfillQueue : List Int
  backfillProgress : BackfillProgress
  currentBlock : Int
deriving DecidableEq

/-- `detectAndQueueGaps()` (`script.js` 1247-1265): scan
`[CONFIG.HISTORICAL_START_BLOCK, lastProcessedBlock]` for blocks not in
`processedBlocks`, sort ascending, and unshift them (front of the
backfill queue, original order preserved).  Nothing checks whether a gap
is already sitting in the queue. -/
def detectAndQueueGaps (cfg : Config) (st : TrackerState) : TrackerState :=
  let gapsFound :=
    (intRange cfg.historicalStartBlock st.backfillProgress.lastProcessedBlock).filter
      (fun b => decide (b ∉ st.processedBlocks))
  let gapsSorted := sortByKey (fun b => b) gapsFound
  { st with backfillQueue := gapsSorted ++ st.backfillQueue }

/-- `queueHistoricalBlocks()` (`script.js` 1227-1245): run gap detection,
then append the next contiguous unprocessed chunk
`[lastProcessedBlock+1, min(lastProcessedBlock+1001, currentBlock)]` and
sort the whole queue ascending. -/
def queueHistoricalBlocks (cfg : Config) (st : TrackerState) : TrackerState :=
  let startBlock := st.backfillProgress.lastProcessedBlock + 1
  let endBlock := min (startBlock + 1000) st.currentBlock
  let st1 := detectAndQueueGaps cfg st
  let newBlocks :=
    (intRange startBlock endBlock).filter (fun b => decide (b ∉ st1.processedBlocks))
  { st1 with backfillQueue := sortByKey (fun b => b) (st1.backfillQueue ++ newBlocks) }

/-! ## Store append (`writeToCSV`, `script.js` 738-772) -/

/-- `writeToCSV(blockNumber, inscriptionId)`: always mark the block
processed; append a `blockNumber,inscriptionId,` row only when an
inscription id is present (`satNumber` defaults to the empty string). -/
def writeToCSV (st : TrackerState) (blockNumber : Int)
    (inscriptionId : Option String) : TrackerState :=
  let st1 := { st with processedBlocks := addProcessed st.processedBlocks blockNumber }
  match inscriptionId with
  | some id => { st1 with csvRows := st1.csvRows ++ [s!"{blockNumber},{id},"] }
  | none => st1

/-! ## Retry state machine (`processBlock`, `script.js` 1267-1332)

The outcome of each `await this.fetchBitmapData(blockNumber)` (and of the
`canMakeRequest()` gate before it) is an environment event; the loop is a
function of the event list.  `processBlockCatch` is the `catch` block:
it receives the pre-increment attempt counter and the error message and
decides the new counter, the wait applied, and how the loop proceeds. -/

inductive FetchEvent where
  /-- `canMakeRequest()` returned false; `true` means the aggregate daily
  total is also exhausted (`return false`), `false` means wait and retry. -/
  | noKey (allExhausted : Bool)
  /-- `fetchBitmapData` resolved (`some id` = found, `none` = no bitmap). -/
  | fetched (inscriptionId : Option String)
  /-- `fetchBitmapData` rejected with an `Error(message)`. -/
  | failed (message : String)
deriving DecidableEq

inductive CatchOutcome where
  /-- rate-limit branches: wait, then `continue` (skips the ceiling check). -/
  | continueLoop
  /-- `Invalid API key`: log and `return true` immediately. -/
  | skipReturn
  /-- ordinary error with the ceiling reached: log `FAILED`, `return true`. -/
  | abandon
  /-- ordinary error below the ceiling: wait `backoffDelay` and loop. -/
  | retryBackoff
deriving DecidableEq

structure CatchResult where
  retries : Nat
  waitMs : Nat
  outcome : CatchOutcome
deriving DecidableEq

/-- The `catch (error)` body of `processBlock`: increment `retries`,
compute `backoffDelay = min(RETRY_DELAY * 2^(retries-1), 30000)`, then
classify the message exactly as the `if`-chain does.  Both rate-limit
branches decrement `retries` back ("Don't count rate limit errors as
retry attempts") and `continue`. -/
def processBlockCatch (cfg : Config) (retries0 : Nat) (msg : String) : CatchResult :=
  let retries := retries0 + 1
  let backoffDelay := min (cfg.retryDelay * 2 ^ (retries - 1)) 30000
  if strContains msg "Rate limit exceeded" then
    { retries := retries - 1, waitMs := 300000, outcome := CatchOutcome.continueLoop }
  else if strContains msg "HTTP 429" || strContains msg "HTTP 403" then
    { retries := retries - 1, waitMs := 600000, outcome := CatchOutcome.continueLoop }
  else if strContains msg "Invalid API key" then
    { retries := retries, waitMs := 0, outcome := CatchOutcome.skipReturn }
  else if cfg.maxRetries ≤ retries then
    { retries := retries, waitMs := backoffDelay, outcome := CatchOutcome.abandon }
  else
    { retries := retries, waitMs := backoffDelay, outcome := CatchOutcome.retryBackoff }

/-- The claim's classifier for an explicit quota / rate-limit signal: the
messages the two rate-limit branches of the `catch` block match. -/
def isQuotaSignal (msg : String) : Bool :=
  strContains msg "Rate limit exceeded" || strContains msg "HTTP 429"
    || strContains msg "HTTP 403"

/-- The `while (retries < CONFIG.MAX_RETRIES)` loop of `processBlock`,
driven by the event list; `none` when the event oracle is exhausted while
the loop still runs.  Returns the final tracker state and the boolean the
JS function returns. -/
def processBlockGo (cfg : Config) (blockNumber : Int) (isPriority : Bool) :
    List FetchEvent → Nat → TrackerState → Option (TrackerState × Bool)
  | [], retries, st =>
    if retries < cfg.maxRetries then none else some (st, true)
  | e :: rest, retries, st =>
    if retries < cfg.maxRetries then
      match e with
      | FetchEvent.noKey true => some (st, false)
      | FetchEvent.noKey false =>
        processBlockGo cfg blockNumber isPriority rest retries st
      | FetchEvent.fetched inscriptionId =>
        let st1 := writeToCSV st blockNumber inscriptionId
        let st2 :=
          if ¬ isPriority ∧ st1.backfillProgress.lastProcessedBlock < blockNumber then
            { st1 with backfillProgress :=
              { lastProcessedBlock := blockNumber
                totalProcessed := st1.backfillProgress.totalProcessed + 1 } }
          else st1
        some (st2, true)
      | FetchEvent.failed msg =>
        let r := processBlockCatch cfg retries msg
        match r.outcome with
        | CatchOutcome.continueLoop =>
          processBlockGo cfg blockNumber isPriority rest r.retries st
        | CatchOutcome.skipReturn => some (st, true)
        | CatchOutcome.abandon => some (st, true)
        | CatchOutcome.retryBackoff =>
          processBlockGo cfg blockNumber isPriority rest r.retries st
    else some (st, true)

/-- `processBlock(blockNumber, isPriority)`: the already-processed fast
path, then the retry loop starting at `retries = 0`. -/
def processBlock (cfg : Config) (st : TrackerState) (blockNumber : Int)
    (isPriority : Bool) (events : List FetchEvent) : Option (TrackerState × Bool) :=
  if blockNumber ∈ st.processedBlocks then some (st, true)
  else processBlockGo cfg blockNumber isPriority events 0 st

/-! ## Orchestrator steps (`startProcessing`, `script.js` 1458-1519)

One iteration of the processing loop in each of its two queue-draining
branches. -/

/-- The priority branch: `shift()` the priority queue and process the
block with `isPriority = true`; the returned boolean is discarded. -/
def startProcessingPriorityStep (cfg : Config) (st : TrackerState)
    (events : List FetchEvent) : Option TrackerState :=
  match st.priorityQueue with
  | [] => none
  | blockNumber :: rest =>
    let st0 := { st with priorityQueue := rest }
    match processBlock cfg st0 blockNumber true events with
    | none => none
    | some (st1, _) => some st1

/-- The backfill branch: `shift()` the backfill queue; on success set
`lastProcessedBlock = blockNumber` *unconditionally* and bump
`totalProcessed`, then refill when the queue runs low; on failure unshift
the block back. -/
def startProcessingBackfillStep (cfg : Config) (st : TrackerState)
    (events : List FetchEvent) : Option TrackerState :=
  match st.backfillQueue with
  | [] => none
  | blockNumber :: rest =>
    let st0 := { st with backfillQueue := rest }
    match processBlock cfg st0 blockNumber false events with
    | none => none
    | some (st1, success) =>
      if success then
        let st2 := { st1 with backfillProgress :=
          { lastProcessedBlock := blockNumber
            totalProcessed := st1.backfillProgress.totalProcessed + 1 } }
        some (if st2.backfillQueue.length < 100 then queueHistoricalBlocks cfg st2 else st2)
      else
        some { st1 with backfillQueue := blockNumber :: st1.backfillQueue }

/-! ## Live-feed handler (`connectWebSocket` message handler,
`script.js` 1532-1549) -/

/-- The `ws.on('message')` handler for a block notification carrying
`blockHeight`: push onto the priority queue unless already queued, and —
only in that branch — advance `currentBlock` when exceeded.  The
processed set is not consulted. -/
def handleBlockMessage (st : TrackerState) (blockHeight : Int) : TrackerState :=
  if blockHeight ∈ st.priorityQueue then st
  else
    let st1 := { st with priorityQueue := st.priorityQueue ++ [blockHeight] }
    if st1.currentBlock < blockHeight then { st1 with currentBlock := blockHeight }
    else st1

/-! ## Concrete instances used in counterexamples and witnesses -/

/-- The documented default configuration. -/
def cfgDefault : Config := {}

/-- A state whose backfill queue already holds the still-unprocessed gap
block 840000, as left by an earlier refill. -/
def stGapQueued : TrackerState :=
  { processedBlocks := []
    csvRows := []
    priorityQueue := []
    backfillQueue := [840000]
    backfillProgress := { lastProcessedBlock := 840000, totalProcessed := 0 }
    currentBlock := 840000 }

/-- An empty-queue state with one processed block inside the scanned range. -/
def stEmptyQueue : TrackerState :=
  { processedBlocks := [840001]
    csvRows := []
    priorityQueue := []
    backfillQueue := []
    backfillProgress := { lastProcessedBlock := 840002, totalProcessed := 0 }
    currentBlock := 840003 }

/-- Progress already at 840010 while the re-offered gap block 840005 heads
the backfill queue. -/
def stGapReoffered : TrackerState :=
  { processedBlocks := []
    csvRows := []
    priorityQueue := []
    backfillQueue := [840005]
    backfillProgress := { lastProcessedBlock := 840010, totalProcessed := 7 }
    currentBlock := 840010 }

/-- A state for exercising `processBlock` directly (empty queues). -/
def stIdle : TrackerState :=
  { processedBlocks := []
    csvRows := []
    priorityQueue := []
    backfillQueue := []
    backfillProgress := { lastProcessedBlock := 840010, totalProcessed := 0 }
    currentBlock := 840010 }

/-- Block 840000 already processed, priority queue empty. -/
def stProcessedLive : TrackerState :=
  { processedBlocks := [840000]
    csvRows := []
    priorityQueue := []
    backfillQueue := []
    backfillProgress := { lastProcessedBlock := 839999, totalProcessed := 0 }
    currentBlock := 839999 }

/-- A store content with rows 840000 and 840002 and nothing for 840001
(confirmed-empty blocks leave no row). -/
def csvTwoRows : String :=
  "block_number,inscription_id,sat_number\n840000,i0abc,\n840002,i2def,\n"

/-- An out-of-order store content with two data rows. -/
def csvOutOfOrder : String :=
  "block_number,inscription_id,sat_number\n840002,b2,\n840001,a1,\n"

/-- One slot, fresh counters, reset boundary not yet crossed at time 500. -/
def kuFresh : KeyUsage :=
  { requestsToday := 0, lastRequestTime := 0, dailyResetTime := 1000 }

def rotOneKey : RotatorState := { keys := [kuFresh], currentKeyIndex := 0 }

/-! # Theorems -/

/-! ## C10: `searchInCSV` caps results at the first 100 matches -/

theorem searchInCSV_foldl_eq (query : String) :
    ∀ (ls : List String) (acc : List CSVRecord),
      ls.foldl (fun results line =>
          if strContains line query then results ++ [rowToRecord line] else results) acc
        = acc ++ (ls.filter (fun l => strContains l query)).map rowToRecord := by
  intro ls
  induction ls with
  | nil => intro acc; simp
  | cons l ls ih =>
    intro acc
    rw [List.foldl_cons, ih]
    by_cases h : strContains l query
    · simp [List.filter_cons, h]
    · simp [List.filter_cons, h]

/-- C10.  For every file content and query, the store's substring search
returns at most 100 records, namely the records of the first at most 100
data rows (in file order) whose raw line contains the query. -/
theorem searchInCSV_first_hundred_matches (content query : String) :
    (searchInCSV content query).length ≤ 100 ∧
    searchInCSV content query
      = (((csvDataLines content).filter (fun l => strContains l query)).map
          rowToRecord).take 100 := by
  have h : searchInCSV content query
      = (((csvDataLines content).filter (fun l => strContains l query)).map
          rowToRecord).take 100 := by
    show (((((strSplit content '\n').drop 1).filter (fun l => strTrim l ≠ "")).foldl
        (fun results line =>
          if strContains line query then results ++ [rowToRecord line] else results)
        []).take 100)
      = (((csvDataLines content).filter (fun l => strContains l query)).map
          rowToRecord).take 100
    rw [searchInCSV_foldl_eq]
    simp [csvDataLines]
  refine ⟨?_, h⟩
  rw [h, List.length_take]
  exact min_le_left _ _

/-! ## C9: the live-feed handler (corrected)

The handler checks only the priority queue before pushing; membership in
`processedBlocks` is not consulted (the skip happens later, when the
block is popped and `processBlock` sees it is processed), and the
watermark only advances in the newly-pushed branch. -/

/-- C9 counterexample: a height that is already in ProcessedSet (and not
in the priority queue) is pushed anyway, contradicting the claim that the
handler pushes "only if ... not already in ProcessedSet". -/
theorem handleBlockMessage_pushes_processed_height :
    stProcessedLive.processedBlocks.contains 840000 = true ∧
    (handleBlockMessage stProcessedLive 840000).priorityQueue = [840000] := by
  decide

/-- C9 (amended).  The handler pushes a delivered height iff it is not
already in the priority queue — ProcessedSet plays no part — and the
current-height watermark is advanced (to the maximum) only in the
newly-pushed branch. -/
theorem handleBlockMessage_characterization (st : TrackerState) (h : Int) :
    handleBlockMessage st h =
      if h ∈ st.priorityQueue then st
      else { st with priorityQueue := st.priorityQueue ++ [h],
                     currentBlock := max st.currentBlock h } := by
  unfold handleBlockMessage
  by_cases hm : h ∈ st.priorityQueue
  · rw [if_pos hm, if_pos hm]
  · rw [if_neg hm, if_neg hm]
    by_cases hc : st.currentBlock < h
    · rw [if_pos hc]
      have : max st.currentBlock h = h := max_eq_right (le_of_lt hc)
      rw [this]
    · rw [if_neg hc]
      have : max st.currentBlock h = st.currentBlock := max_eq_left (not_lt.mp hc)
      rw [this]

/-! ## C8: ProcessedSet rebuild (corrected)

`loadProcessedBlocks` scans only the CSV; the progress marker contributes
nothing, so a confirmed-empty block below the marker is absent. -/

theorem mem_addProcessed {s : List Int} {b c : Int} :
    b ∈ addProcessed s c ↔ b ∈ s ∨ b = c := by
  unfold addProcessed
  by_cases h : c ∈ s
  · rw [if_pos h]
    constructor
    · exact Or.inl
    · rintro (hb | rfl)
      · exact hb
      · exact h
  · rw [if_neg h]
    simp

theorem loadProcessedBlocks_foldl_mem (b : Int) :
    ∀ (ls : List String) (acc : List Int),
      (b ∈ ls.foldl
          (fun acc l =>
            let line := strTrim l
            if line ≠ "" then
              match parseIntJS ((strSplit line ',').headD "") with
              | some blockNumber => addProcessed acc blockNumber
              | none => acc
            else acc)
          acc)
        ↔ b ∈ acc ∨ ∃ l ∈ ls, strTrim l ≠ "" ∧
            parseIntJS ((strSplit (strTrim l) ',').headD "") = some b := by
  intro ls
  induction ls with
  | nil => intro acc; simp
  | cons l ls ih =>
    intro acc
    rw [List.foldl_cons, ih]
    by_cases ht : strTrim l ≠ ""
    · rw [if_pos ht]
      cases hp : parseIntJS ((strSplit (strTrim l) ',').headD "") with
      | none =>
        simp only [List.mem_cons]
        constructor
        · rintro (hb | ⟨l2, hl2, h2⟩)
          · exact Or.inl hb
          · exact Or.inr ⟨l2, Or.inr hl2, h2⟩
        · rintro (hb | ⟨l2, rfl | hl2, h2⟩)
          · exact Or.inl hb
          · rw [hp] at h2; cases h2.2
          · exact Or.inr ⟨l2, hl2, h2⟩
      | some bn =>
        rw [mem_addProcessed]
        simp only [List.mem_cons]
        constructor
        · rintro ((hb | rfl) | ⟨l2, hl2, h2⟩)
          · exact Or.inl hb
          · exact Or.inr ⟨l, Or.inl rfl, ht, hp⟩
          · exact Or.inr ⟨l2, Or.inr hl2, h2⟩
        · rintro (hb | ⟨l2, rfl | hl2, h2⟩)
          · exact Or.inl (Or.inl hb)
          · rw [hp] at h2
            exact Or.inl (Or.inr (Option.some_injective _ h2.2).symm)
          · exact Or.inr ⟨l2, hl2, h2⟩
    · rw [if_neg ht]
      push_neg at ht
      constructor
      · rintro (hb | ⟨l2, hl2, h2⟩)
        · exact Or.inl hb
        · exact Or.inr ⟨l2, List.mem_cons_of_mem _ hl2, h2⟩
      · rintro (hb | ⟨l2, hl2, h2⟩)
        · exact Or.inl hb
        · rcases List.mem_cons.mp hl2 with rfl | hl2'
          · exact absurd ht h2.1.elim
          · exact Or.inr ⟨l2, hl2', h2⟩

/-- C8 counterexample: with store rows only for 840000 and 840002 and the
progress marker at 840002, the rebuilt set does not contain the
marker-covered confirmed-empty block 840001 — the claim's "every block
covered by the Progress Tracker's last-processed marker" fails. -/
theorem loadProcessedBlocks_ignores_marker :
    loadProcessedBlocks csvTwoRows = [840000, 840002] ∧
    (loadProcessedBlocks csvTwoRows).contains 840001 = false := by
  constructor
  · rfl
  · rfl

/-- C8 (amended).  On startup ProcessedSet is rebuilt from the Dataset
Store alone: it contains exactly the block numbers whose first CSV field
parses on some non-blank data line; the Progress Tracker's marker is not
consulted, so confirmed-empty blocks below the marker are absent. -/
theorem loadProcessedBlocks_exactly_store_rows (content : String) (b : Int) :
    b ∈ loadProcessedBlocks content ↔
      ∃ l ∈ (strSplit content '\n').drop 1,
        strTrim l ≠ "" ∧ parseIntJS ((strSplit (strTrim l) ',').headD "") = some b := by
  unfold loadProcessedBlocks
  rw [loadProcessedBlocks_foldl_mem]
  simp

/-! ## C3: `sortCSVFile` rewrite mechanics (corrected)

The rewrite is a single direct `fs.writeFileSync(csvFile, ...)` to the
dataset path: no temporary file is written and no rename installs the new
content, so there is no write-to-temp-then-replace step at all. -/

/-- C3 counterexample: on a concrete rewriting run the operation trace
contains no rename installing the dataset file but does contain a direct
write to it — the claimed write-to-temp-then-replace shape is absent. -/
theorem sortCSVFile_trace_has_no_rename :
    renamesIntoTarget "bitmap_data.csv" (sortCSVFileOps "bitmap_data.csv" csvOutOfOrder)
      = false ∧
    writesTargetDirectly "bitmap_data.csv" (sortCSVFileOps "bitmap_data.csv" csvOutOfOrder)
      = true := by
  constructor
  · rfl
  · rfl

/-- C3 (amended).  Every `sortCSVFile` run touches the file system only by
reading the dataset path and (when it rewrites at all) writing the new
content directly, in place, to that same path; it never renames and never
writes any other path.  Consequently the rewrite is not protected by
write-to-temp-then-replace semantics. -/
theorem sortCSVFileOps_in_place_only (csvFile content : String) :
    (sortCSVFileOps csvFile content).all (fun op =>
      match op with
      | FsOp.renameOp _ _ => false
      | FsOp.writeOp p _ => p = csvFile
      | FsOp.readOp _ => true) = true := by
  unfold sortCSVFileOps
  cases sortCSVFile content with
  | none => rfl
  | some newContent => simp [List.all]

/-! ## C2: progress monotonicity (code bug)

`processBlock` itself advances `lastProcessedBlock` only when
`blockNumber` exceeds it, but the backfill branch of `startProcessing`
afterwards assigns `lastProcessedBlock = blockNumber` unconditionally, so
successfully processing a re-offered gap block moves the marker
backwards. -/

/-- C2 failing run: with the marker at 840010 and the re-offered gap
block 840005 at the head of the backfill queue, a successful fetch ends
the iteration with `lastProcessedBlock = 840005 < 840010`. -/
theorem startProcessing_regresses_marker_on_gap_block :
    stGapReoffered.backfillProgress.lastProcessedBlock = 840010 ∧
    ((startProcessingBackfillStep cfgDefault stGapReoffered
        [FetchEvent.fetched (some "i5abc")]).map
      (fun s => s.backfillProgress.lastProcessedBlock)) = some 840005 := by
  constructor
  · rfl
  · rfl

/-! ## C5: fatal credential errors (corrected)

The `Invalid API key` branch logs and returns `true` without calling
`writeToCSV`, so the block is *not* added to ProcessedSet and nothing is
written; gap detection will re-offer it later. -/

/-- C5 counterexample: a fatal invalid-credential failure returns success
with the state untouched — in particular the block is not added to
ProcessedSet (the claim says it is marked processed). -/
theorem processBlock_fatal_leaves_block_unmarked :
    processBlock cfgDefault stIdle 840005 false
        [FetchEvent.failed "Invalid API key (Key 1)"] = some (stIdle, true) ∧
    stIdle.processedBlocks.contains 840005 = false ∧
    stIdle.csvRows.length = 0 := by
  refine ⟨?_, rfl, rfl⟩
  rfl

/-- Reduction of one loop iteration on a `failed` event: the branch taken
is decided by the `catch` classification. -/
theorem processBlockGo_failed_step (cfg : Config) (b : Int) (pri : Bool)
    (msg : String) (rest : List FetchEvent) (retries : Nat)
    (st : TrackerState) (hlt : retries < cfg.maxRetries) :
    processBlockGo cfg b pri (FetchEvent.failed msg :: rest) retries st
      = match (processBlockCatch cfg retries msg).outcome with
        | CatchOutcome.continueLoop =>
          processBlockGo cfg b pri rest (processBlockCatch cfg retries msg).retries st
        | CatchOutcome.skipReturn => some (st, true)
        | CatchOutcome.abandon => some (st, true)
        | CatchOutcome.retryBackoff =>
          processBlockGo cfg b pri rest (processBlockCatch cfg retries msg).retries st := by
  conv_lhs => unfold processBlockGo
  rw [if_pos hlt]

/-- C5 (amended).  Whenever a fetch fails fatally with an invalid-
credential message (and no rate-limit marker), `processBlock` logs and
returns success immediately with the tracker state unchanged: the block
is not added to ProcessedSet and nothing is written to the store, so gap
detection can re-offer it on a later cycle. -/
theorem processBlock_fatal_skips_without_marking (cfg : Config)
    (st : TrackerState) (b : Int) (pri : Bool) (msg : String)
    (rest : List FetchEvent) (retries : Nat)
    (hr : retries < cfg.maxRetries)
    (hq : isQuotaSignal msg = false)
    (hk : strContains msg "Invalid API key" = true) :
    processBlockGo cfg b pri (FetchEvent.failed msg :: rest) retries st
      = some (st, true) := by
  have h1 : strContains msg "Rate limit exceeded" = false := by
    unfold isQuotaSignal at hq
    rcases Bool.or_eq_false_iff.mp hq with ⟨h, _⟩
    exact Bool.or_eq_false_iff.mp h |>.1
  have h2 : strContains msg "HTTP 429" = false := by
    unfold isQuotaSignal at hq
    rcases Bool.or_eq_false_iff.mp hq with ⟨h, _⟩
    exact Bool.or_eq_false_iff.mp h |>.2
  have h3 : strContains msg "HTTP 403" = false := by
    unfold isQuotaSignal at hq
    exact (Bool.or_eq_false_iff.mp hq).2
  have hc : processBlockCatch cfg retries msg =
      { retries := retries + 1, waitMs := 0, outcome := CatchOutcome.skipReturn } := by
    unfold processBlockCatch
    rw [if_neg (by simp [h1]), if_neg (by simp [h2, h3]), if_pos (by simp [hk])]
  rw [processBlockGo_failed_step cfg b pri msg rest retries st hr, hc]

/-- C5 witness: the amended theorem instantiated on a concrete fatal run. -/
theorem processBlock_fatal_skips_without_marking_witness :
    processBlockGo cfgDefault 840005 false
        [FetchEvent.failed "Invalid API key (Key 1)"] 0 stIdle
      = some (stIdle, true) :=
  processBlock_fatal_skips_without_marking cfgDefault stIdle 840005 false
    "Invalid API key (Key 1)" [] 0 (by decide) (by decide) (by decide)

/-! ## C4: quota failures never consume a retry attempt (confirmed) -/

/-- C4.  A failure carrying an explicit quota / rate-limit signal leaves
the attempt counter unchanged (the `retries++` is undone), takes the
`continue` path, and waits at least 300 s — strictly longer than the
30 s cap of ordinary exponential backoff, which every non-quota failure
respects; consequently the retry loop re-enters with the same counter, so
such failures can never exhaust `MAX_RETRIES`. -/
theorem processBlock_quota_failure_not_counted (cfg : Config)
    (retries : Nat) (msg : String) (hq : isQuotaSignal msg = true) :
    (processBlockCatch cfg retries msg).retries = retries ∧
    (processBlockCatch cfg retries msg).outcome = CatchOutcome.continueLoop ∧
    300000 ≤ (processBlockCatch cfg retries msg).waitMs ∧
    (∀ (retries2 : Nat) (msg2 : String), isQuotaSignal msg2 = false →
      (processBlockCatch cfg retries2 msg2).waitMs ≤ 30000) ∧
    (∀ (b : Int) (pri : Bool) (rest : List FetchEvent) (st : TrackerState),
      retries < cfg.maxRetries →
      processBlockGo cfg b pri (FetchEvent.failed msg :: rest) retries st
        = processBlockGo cfg b pri rest retries st) := by
  have hmain : processBlockCatch cfg retries msg =
      { retries := retries, waitMs := 300000, outcome := CatchOutcome.continueLoop } ∨
      processBlockCatch cfg retries msg =
      { retries := retries, waitMs := 600000, outcome := CatchOutcome.continueLoop } := by
    unfold processBlockCatch
    by_cases h1 : strContains msg "Rate limit exceeded" = true
    · left
      rw [if_pos h1, Nat.add_sub_cancel]
    · right
      have h23 : (strContains msg "HTTP 429" || strContains msg "HTTP 403") = true := by
        unfold isQuotaSignal at hq
        rcases Bool.or_eq_true_iff.mp hq with h | h
        · rcases Bool.or_eq_true_iff.mp h with h | h
          · exact absurd h h1
          · simp [h]
        · simp [h]
      rw [if_neg (by simp [Bool.not_eq_true] at h1 ⊢; exact h1), if_pos h23,
        Nat.add_sub_cancel]
  have hfields : (processBlockCatch cfg retries msg).retries = retries ∧
      (processBlockCatch cfg retries msg).outcome = CatchOutcome.continueLoop ∧
      300000 ≤ (processBlockCatch cfg retries msg).waitMs := by
    rcases hmain with h | h <;> rw [h] <;> exact ⟨rfl, rfl, by norm_num⟩
  refine ⟨hfields.1, hfields.2.1, hfields.2.2, ?_, ?_⟩
  · intro retries2 msg2 hq2
    have h1 : strContains msg2 "Rate limit exceeded" = false := by
      unfold isQuotaSignal at hq2
      exact (Bool.or_eq_false_iff.mp (Bool.or_eq_false_iff.mp hq2).1).1
    have h2 : strContains msg2 "HTTP 429" = false := by
      unfold isQuotaSignal at hq2
      exact (Bool.or_eq_false_iff.mp (Bool.or_eq_false_iff.mp hq2).1).2
    have h3 : strContains msg2 "HTTP 403" = false := by
      unfold isQuotaSignal at hq2
      exact (Bool.or_eq_false_iff.mp hq2).2
    unfold processBlockCatch
    rw [if_neg (by simp [h1]), if_neg (by simp [h2, h3])]
    by_cases hk : strContains msg2 "Invalid API key" = true
    · rw [if_pos hk]
      exact Nat.zero_le _
    · rw [if_neg hk]
      by_cases hm : cfg.maxRetries ≤ retries2 + 1
      · rw [if_pos hm]
        exact min_le_right _ _
      · rw [if_neg hm]
        exact min_le_right _ _
  · intro b pri rest st hlt
    rw [processBlockGo_failed_step cfg b pri msg rest retries st hlt]
    rcases hmain with h | h <;> rw [h]

/-- C4 witness: the theorem applied to the default configuration, a fresh
attempt counter and a concrete quota-signalling message. -/
theorem processBlock_quota_failure_not_counted_witness :
    (processBlockCatch cfgDefault 0 "Rate limit exceeded - HTTP 429").retries = 0 ∧
    (processBlockCatch cfgDefault 0 "Rate limit exceeded - HTTP 429").outcome
      = CatchOutcome.continueLoop ∧
    processBlockGo cfgDefault 840005 false
        [FetchEvent.failed "Rate limit exceeded - HTTP 429"] 0 stIdle
      = processBlockGo cfgDefault 840005 false [] 0 stIdle := by
  have h := processBlock_quota_failure_not_counted cfgDefault 0
    "Rate limit exceeded - HTTP 429" (by decide)
  exact ⟨h.1, h.2.1, h.2.2.2.2 840005 false [] stIdle (by decide)⟩

/-! ## C6: `sortCSVFile` output order and first-occurrence dedupe
(confirmed) -/

/-- C6.  After any `sortCSVFile` rewrite the kept rows are strictly
increasing in block number, and for every block number `b` the kept rows
with number `b` are exactly the first parsed occurrence of `b` in the
original file (so appending a duplicate `Found` row and re-running the
pass leaves exactly one row for that number, the first one). -/
theorem sortCSVFile_strict_order_first_kept (content : String) (b : Int) :
    (sortCSVFileUnique content).Pairwise
      (fun e f => e.blockNumber < f.blockNumber) ∧
    (sortCSVFileUnique content).filter (fun e => e.blockNumber = b)
      = ((sortCSVFileParsed content).filter (fun e => e.blockNumber = b)).take 1 := by
  constructor
  · have hle : (sortCSVFileUnique content).Pairwise
        (fun e f => e.blockNumber ≤ f.blockNumber) := by
      have hsorted := sortByKey_pairwise_le (fun e : CSVEntry => e.blockNumber)
        (sortCSVFileParsed content)
      have hsub := dedupeByKey_sublist (fun e : CSVEntry => e.blockNumber) []
        (sortByKey (fun e : CSVEntry => e.blockNumber) (sortCSVFileParsed content))
      exact List.Pairwise.sublist hsub hsorted
    have hne : (sortCSVFileUnique content).Pairwise
        (fun e f => e.blockNumber ≠ f.blockNumber) :=
      (dedupeByKey_keys_fresh (fun e : CSVEntry => e.blockNumber) []
        (sortByKey (fun e : CSVEntry => e.blockNumber) (sortCSVFileParsed content))).2
    exact (hle.and hne).imp (fun h => lt_of_le_of_ne h.1 h.2)
  · exact (filter_dedupeByKey_unseen (fun e : CSVEntry => e.blockNumber)
        (List.not_mem_nil b)
        (sortByKey (fun e : CSVEntry => e.blockNumber) (sortCSVFileParsed content))).trans
      (congrArg (List.take 1)
        (filter_sortByKey (fun e : CSVEntry => e.blockNumber) b
          (sortCSVFileParsed content)))

/-! ## C1: queue refill (corrected)

`detectAndQueueGaps` never checks the existing backfill queue, so a gap
block already sitting in the queue is unshifted again; the refill result
is sorted but can carry duplicates.  Starting from an empty queue the
claimed exactly-once / sorted / duplicate-free property does hold. -/

/-- C1 counterexample: block 840000 lies in the scanned range, is not in
ProcessedSet, and already sits in the backfill queue; after the refill it
appears twice — refuting both "appears exactly once" and "a gap block
already sitting in the queue is not added a second time". -/
theorem queueHistoricalBlocks_duplicates_queued_gap :
    cfgDefault.historicalStartBlock = 840000 ∧
    stGapQueued.backfillProgress.lastProcessedBlock = 840000 ∧
    stGapQueued.processedBlocks.contains 840000 = false ∧
    stGapQueued.backfillQueue = [840000] ∧
    (queueHistoricalBlocks cfgDefault stGapQueued).backfillQueue.count 840000 = 2 := by
  refine ⟨rfl, rfl, rfl, rfl, ?_⟩
  rfl

/-- C1 (amended).  When the refill starts from an *empty* backfill queue,
the refilled queue lists every block of
`[historicalStartBlock, lastProcessedBlock]` missing from ProcessedSet
exactly once and is strictly ascending (sorted, duplicate-free); when a
missing block already sits in the queue, the refill enqueues it a second
time (see the counterexample), so the claim holds only from the empty
queue. -/
theorem queueHistoricalBlocks_refill_from_empty (cfg : Config)
    (st : TrackerState) (hq : st.backfillQueue = []) :
    (∀ b : Int, cfg.historicalStartBlock ≤ b →
      b ≤ st.backfillProgress.lastProcessedBlock →
      b ∉ st.processedBlocks →
      (queueHistoricalBlocks cfg st).backfillQueue.count b = 1) ∧
    (queueHistoricalBlocks cfg st).backfillQueue.Pairwise (fun a b => a < b) := by
  have hgaps :
      (detectAndQueueGaps cfg st).backfillQueue
        = sortByKey (fun b => b)
            ((intRange cfg.historicalStartBlock
                st.backfillProgress.lastProcessedBlock).filter
              (fun b => decide (b ∉ st.processedBlocks))) := by
    unfold detectAndQueueGaps
    rw [hq]
    simp
  have hproc : (detectAndQueueGaps cfg st).processedBlocks = st.processedBlocks := rfl
  have hprog : (detectAndQueueGaps cfg st).backfillProgress = st.backfillProgress := rfl
  set gaps := (intRange cfg.historicalStartBlock
      st.backfillProgress.lastProcessedBlock).filter
    (fun b => decide (b ∉ st.processedBlocks)) with hgapsDef
  set newBlocks := (intRange (st.backfillProgress.lastProcessedBlock + 1)
      (min (st.backfillProgress.lastProcessedBlock + 1 + 1000) st.currentBlock)).filter
    (fun b => decide (b ∉ st.processedBlocks)) with hnewDef
  have hqueue : (queueHistoricalBlocks cfg st).backfillQueue
      = sortByKey (fun b => b) (sortByKey (fun b => b) gaps ++ newBlocks) := by
    show sortByKey (fun b => b) ((detectAndQueueGaps cfg st).backfillQueue ++ newBlocks)
      = sortByKey (fun b => b) (sortByKey (fun b => b) gaps ++ newBlocks)
    rw [hgaps]
  have hperm : List.Perm (queueHistoricalBlocks cfg st).backfillQueue
      (gaps ++ newBlocks) := by
    rw [hqueue]
    exact (sortByKey_perm _ _).trans
      ((sortByKey_perm (fun b => b) gaps).append_right newBlocks)
  have hgapsNodup : gaps.Nodup := (intRange_nodup _ _).filter _
  have hnewNodup : newBlocks.Nodup := (intRange_nodup _ _).filter _
  have hgapsHi : ∀ b ∈ gaps, b ≤ st.backfillProgress.lastProcessedBlock := by
    intro b hb
    have := List.of_mem_filter hb
    have hmem := List.mem_of_mem_filter hb
    exact (mem_intRange.mp hmem).2
  have hnewLo : ∀ b ∈ newBlocks, st.backfillProgress.lastProcessedBlock + 1 ≤ b := by
    intro b hb
    have hmem := List.mem_of_mem_filter hb
    exact (mem_intRange.mp hmem).1
  have hdisj : gaps.Disjoint newBlocks := by
    intro b hb hb2
    have h1 := hgapsHi b hb
    have h2 := hnewLo b hb2
    omega
  constructor
  · intro b hlo hhi hnp
    rw [hperm.count_eq, List.count_append]
    have hbg : b ∈ gaps := by
      rw [hgapsDef, List.mem_filter]
      exact ⟨mem_intRange.mpr ⟨hlo, hhi⟩, by simpa using hnp⟩
    have hcg : gaps.count b = 1 := List.count_eq_one_of_mem hgapsNodup hbg
    have hcn : newBlocks.count b = 0 := by
      refine List.count_eq_zero_of_not_mem ?_
      intro hb2
      have := hnewLo b hb2
      omega
    omega
  · have hle : (queueHistoricalBlocks cfg st).backfillQueue.Pairwise
        (fun a b => a ≤ b) := by
      rw [hqueue]
      exact sortByKey_pairwise_le (fun b => b) _
    have hnodup : (queueHistoricalBlocks cfg st).backfillQueue.Nodup :=
      hperm.symm.nodup (hgapsNodup.append hnewNodup hdisj)
    exact (hle.and hnodup).imp (fun h => lt_of_le_of_ne h.1 h.2)

/-- C1 witness: the amended theorem instantiated on a concrete state with
an empty queue (one processed block inside the range). -/
theorem queueHistoricalBlocks_refill_from_empty_witness :
    (queueHistoricalBlocks cfgDefault stEmptyQueue).backfillQueue.count 840000 = 1 ∧
    (queueHistoricalBlocks cfgDefault stEmptyQueue).backfillQueue.Pairwise
      (fun a b => a < b) := by
  have h := queueHistoricalBlocks_refill_from_empty cfgDefault stEmptyQueue rfl
  exact ⟨h.1 840000 (by decide) (by decide) (by decide), h.2⟩

/-! ## C7: the credential rotator (confirmed)

The round-robin indices `(cur + k) % n`, `k < n`, enumerate each slot
exactly once; the scan applies the due daily resets as it visits a slot
and accepts the first usable one. -/

theorem roundRobin_mod_inj {n cur k j : Nat} (hk : k < n) (hj : j < n)
    (h : (cur + k) % n = (cur + j) % n) : k = j := by
  have h2 : k ≡ j [MOD n] := Nat.ModEq.add_left_cancel' cur h
  have h3 : k % n = j % n := h2
  rwa [Nat.mod_eq_of_lt hk, Nat.mod_eq_of_lt hj] at h3

theorem roundRobin_mod_surj (cur : Nat) {n m : Nat} (hm : m < n) :
    ∃ k, k < n ∧ (cur + k) % n = m := by
  have hn : 0 < n := Nat.lt_of_le_of_lt (Nat.zero_le m) hm
  refine ⟨(m + n - cur % n) % n, Nat.mod_lt _ hn, ?_⟩
  rw [Nat.add_mod_mod]
  have hc : cur % n < n := Nat.mod_lt _ hn
  have hdm := Nat.div_add_mod cur n
  have hmul : n * (cur / n + 1) = n * (cur / n) + n := by
    rw [Nat.mul_add, Nat.mul_one]
  have harith : cur + (m + n - cur % n) = n * (cur / n + 1) + m := by omega
  rw [harith, Nat.mul_add_mod, Nat.mod_eq_of_lt hm]

/-- Full invariant of the scan loop: lengths are preserved; slots outside
the remaining scan window keep their entries; a successful scan returns a
usable slot and leaves every slot it rejected first demonstrably unusable
(after its daily reset); an exhausted scan leaves every remaining slot
unusable. -/
theorem getNextAvailableKeyAux_spec (cfg : Config) (now nextMidnight : Int)
    (cur : Nat) :
    ∀ (fuel i : Nat) (keys keys2 : List KeyUsage) (r : Option Nat),
      i + fuel = keys.length →
      getNextAvailableKeyAux cfg now nextMidnight cur fuel i keys = (keys2, r) →
      keys2.length = keys.length ∧
      (∀ m : Nat, m < keys.length →
        (∀ k : Nat, i ≤ k → k < keys.length → m ≠ (cur + k) % keys.length) →
        keys2[m]? = keys[m]?) ∧
      (∀ idx, r = some idx →
        ∃ j : Nat, i ≤ j ∧ j < keys.length ∧ idx = (cur + j) % keys.length ∧
          (∃ u, keys2[idx]? = some u ∧ slotUsable cfg now u = true) ∧
          (∀ k : Nat, i ≤ k → k < j →
            ∃ v, keys2[(cur + k) % keys.length]? = some v ∧
              slotUsable cfg now v = false)) ∧
      (r = none →
        ∀ k : Nat, i ≤ k → k < keys.length →
          ∃ v, keys2[(cur + k) % keys.length]? = some v ∧
            slotUsable cfg now v = false) := by
  intro fuel
  induction fuel with
  | zero =>
    intro i keys keys2 r hinv heq
    unfold getNextAvailableKeyAux at heq
    rw [Prod.mk.injEq] at heq
    obtain ⟨h1, h2⟩ := heq
    subst h1
    subst h2
    refine ⟨rfl, fun m _ _ => rfl, ?_, ?_⟩
    · intro idx h
      cases h
    · intro _ k hik hk
      omega
  | succ fuel ih =>
    intro i keys keys2 r hinv heq
    have hn : 0 < keys.length := by omega
    have hi : i < keys.length := by omega
    have hki : (cur + i) % keys.length < keys.length := Nat.mod_lt _ hn
    have hget : keys[(cur + i) % keys.length]?
        = some (keys[(cur + i) % keys.length]) :=
      List.getElem?_eq_getElem hki
    unfold getNextAvailableKeyAux at heq
    rw [hget] at heq
    simp only [] at heq
    set u := keys[(cur + i) % keys.length] with hu
    set u2 := resetIfDue now nextMidnight u with hu2
    by_cases husable : slotUsable cfg now u2 = true
    · rw [if_pos husable, Prod.mk.injEq] at heq
      obtain ⟨hk2, hr⟩ := heq
      subst hk2
      subst hr
      refine ⟨List.length_set _ _ _, ?_, ?_, ?_⟩
      · intro m hm hout
        have hne : m ≠ (cur + i) % keys.length := hout i (le_refl i) hi
        exact List.getElem?_set_ne (fun h => hne h.symm)
      · intro idx hidx
        obtain rfl : idx = (cur + i) % keys.length := by
          exact (Option.some_injective _ hidx).symm
        refine ⟨i, le_refl i, hi, rfl, ⟨u2, ?_, husable⟩, ?_⟩
        · exact List.getElem?_set_self hki
        · intro k hik hki2
          omega
      · intro h
        cases h
    · rw [if_neg husable] at heq
      have hlen2 : (keys.set ((cur + i) % keys.length) u2).length = keys.length :=
        List.length_set _ _ _
      have hinv2 : (i + 1) + fuel = (keys.set ((cur + i) % keys.length) u2).length := by
        omega
      obtain ⟨ihlen, ihframe, ihsome, ihnone⟩ :=
        ih (i + 1) (keys.set ((cur + i) % keys.length) u2) keys2 r hinv2 heq
      rw [hlen2] at ihlen ihframe ihsome ihnone
      have hinotin : ∀ k : Nat, i + 1 ≤ k → k < keys.length →
          (cur + i) % keys.length ≠ (cur + k) % keys.length := by
        intro k h1k h2k habs
        have := roundRobin_mod_inj hi h2k habs
        omega
      have hslot_i : keys2[(cur + i) % keys.length]? = some u2 := by
        rw [ihframe ((cur + i) % keys.length) hki hinotin]
        exact List.getElem?_set_self hki
      have husable2 : slotUsable cfg now u2 = false :=
        Bool.not_eq_true _ ▸ (by simpa using husable)
      refine ⟨ihlen, ?_, ?_, ?_⟩
      · intro m hm hout
        have hm_ne_i : m ≠ (cur + i) % keys.length := hout i (le_refl i) hi
        rw [ihframe m hm (fun k h1 h2 => hout k (by omega) h2)]
        exact List.getElem?_set_ne (fun h => hm_ne_i h.symm)
      · intro idx hidx
        obtain ⟨j, hij, hjn, hidxj, hu3, hearlier⟩ := ihsome idx hidx
        refine ⟨j, by omega, hjn, hidxj, hu3, ?_⟩
        intro k hik hkj
        rcases Nat.eq_or_lt_of_le hik with rfl | hik2
        · exact ⟨u2, hslot_i, husable2⟩
        · exact hearlier k (by omega) hkj
      · intro hr k hik hkn
        rcases Nat.eq_or_lt_of_le hik with rfl | hik2
        · exact ⟨u2, hslot_i, husable2⟩
        · exact ihnone hr k (by omega) hkn

/-- C7.  `getNextAvailableKey` preserves the slot count; when it returns a
slot, that slot — after its due daily reset — satisfies
`requestsToday < dailyLimit − buffer` and the minimum-interval test (so a
slot over quota is never returned), it is the first qualifying slot in
round-robin order from the rotation pointer (each slot scanned before it
being unusable), and the pointer advances to just past it; when it
returns none, every slot (after resets) is unusable. -/
theorem getNextAvailableKey_first_usable (cfg : Config) (now nextMidnight : Int)
    (st st2 : RotatorState) (r : Option Nat)
    (heq : getNextAvailableKey cfg now nextMidnight st = (st2, r)) :
    st2.keys.length = st.keys.length ∧
    (∀ idx, r = some idx →
      idx < st.keys.length ∧
      st2.currentKeyIndex = (idx + 1) % st.keys.length ∧
      (∃ u, st2.keys[idx]? = some u ∧ slotUsable cfg now u = true) ∧
      (∃ j, j < st.keys.length ∧ idx = (st.currentKeyIndex + j) % st.keys.length ∧
        ∀ k, k < j →
          ∃ v, st2.keys[(st.currentKeyIndex + k) % st.keys.length]? = some v ∧
            slotUsable cfg now v = false)) ∧
    (r = none → ∀ m, m < st.keys.length →
      ∃ v, st2.keys[m]? = some v ∧ slotUsable cfg now v = false) := by
  unfold getNextAvailableKey at heq
  cases haux : getNextAvailableKeyAux cfg now nextMidnight st.currentKeyIndex
      st.keys.length 0 st.keys with
  | mk keys2 r0 =>
    obtain ⟨hlen, hframe, hsome, hnone⟩ :=
      getNextAvailableKeyAux_spec cfg now nextMidnight st.currentKeyIndex
        st.keys.length 0 st.keys keys2 r0 (Nat.zero_add _) haux
    rw [haux] at heq
    cases r0 with
    | some idx0 =>
      simp only [] at heq
      rw [Prod.mk.injEq] at heq
      obtain ⟨hst2, hr⟩ := heq
      subst hst2
      subst hr
      refine ⟨hlen, ?_, ?_⟩
      · intro idx hidx
        have hidx2 : idx = idx0 := Option.some_injective _ hidx.symm
        subst hidx2
        obtain ⟨j, _, hjn, hidxj, hu, hearlier⟩ := hsome idx rfl
        have hidxlt : idx < st.keys.length := by
          rw [hidxj]
          exact Nat.mod_lt _ (by omega)
        refine ⟨hidxlt, by rw [hlen], hu, j, hjn, hidxj, ?_⟩
        intro k hk
        exact hearlier k (Nat.zero_le k) hk
      · intro h
        cases h
    | none =>
      simp only [] at heq
      rw [Prod.mk.injEq] at heq
      obtain ⟨hst2, hr⟩ := heq
      subst hst2
      subst hr
      refine ⟨hlen, ?_, ?_⟩
      · intro idx hidx
        cases hidx
      · intro _ m hm
        obtain ⟨k, hkn, hkm⟩ := roundRobin_mod_surj st.currentKeyIndex hm
        rw [← hkm]
        exact hnone rfl k (Nat.zero_le k) hkn

/-- C7 witness: the theorem applied to a one-slot rotator whose slot is
fresh, extracting that the returned slot passes both usability tests. -/
theorem getNextAvailableKey_first_usable_witness :
    ∃ u, (({ keys := [kuFresh], currentKeyIndex := 0 } : RotatorState)).keys[0]?
        = some u ∧ slotUsable cfgDefault 500 u = true := by
  have h := getNextAvailableKey_first_usable cfgDefault 500 2000 rotOneKey
    { keys := [kuFresh], currentKeyIndex := 0 } (some 0) (by decide)
  exact (h.2.1 0 rfl).2.2.1

end GeniiData
